import Mathlib

/-!
A verification development for the glance image cache
(`glance/image_cache/__init__.py`): a shallow embedding of the on-disk
cache state (committed entries under the root, plus the `tmp`, `invalid`,
`prefetch` and `prefetching` directories), the write/read session
protocol, the prefetch queue, the purge operations and the introspection
listings, together with theorems about commit/rollback publication, hit
accounting, queueing conflicts, FIFO dequeue, purge frame conditions and
malformed-filename handling.

Filesystem extended attributes are provided by `glance.utils`
(`set_xattr` / `get_xattr` / `inc_xattr`), which is not among the
embedded sources; those three operations are modelled from the spec's
AttributeStore contract (`get`/`set`/`increment` keyed by path and
attribute name).
-/

set_option autoImplicit false

namespace Glance

/-- Whitespace characters stripped by Python's `int()` conversion. -/
def pySpace (c : Char) : Bool :=
  decide (c = ' ' ∨ c = '\t' ∨ c = '\n' ∨ c = '\r' ∨ c = '\x0b' ∨ c = '\x0c')

/-- Decimal digit test, as used by Python's `int()` conversion. -/
def pyDigit (c : Char) : Bool :=
  decide (48 ≤ c.toNat ∧ c.toNat ≤ 57)

/-- Numeric value of a decimal digit character. -/
def digitVal (c : Char) : Nat := c.toNat - 48

/-- The decimal digit character for a value below ten (clamped at `'9'`). -/
def digitChar (n : Nat) : Char :=
  if n = 0 then '0' else if n = 1 then '1' else if n = 2 then '2'
  else if n = 3 then '3' else if n = 4 then '4' else if n = 5 then '5'
  else if n = 6 then '6' else if n = 7 then '7' else if n = 8 then '8'
  else '9'

/-- Fuelled decimal rendering of a natural number (most significant digit
first); any `fuel > n` suffices. -/
def renderNatGo : Nat → Nat → List Char
  | 0, _ => []
  | fuel + 1, n =>
    if n < 10 then [digitChar n]
    else renderNatGo fuel (n / 10) ++ [digitChar (n % 10)]

/-- Model of Python's `str` applied to a natural number (image ids are
database integers, rendered in decimal to name their cache files). -/
def strOfNat (n : Nat) : String := ⟨renderNatGo (n + 1) n⟩

/-- Accumulating decimal parser: consumes digit characters, failing on
any non-digit. -/
def parseDigitsAux : Nat → List Char → Option Nat
  | acc, [] => some acc
  | acc, c :: cs =>
    if pyDigit c then parseDigitsAux (acc * 10 + digitVal c) cs else none

/-- Parse a non-empty all-digit character list as a natural number. -/
def parseDigits (cs : List Char) : Option Nat :=
  match cs with
  | [] => none
  | _ :: _ => parseDigitsAux 0 cs

/-- Strip leading and trailing Python whitespace. -/
def trimChars (cs : List Char) : List Char :=
  ((cs.dropWhile pySpace).reverse.dropWhile pySpace).reverse

/-- Model of Python's `int(s)` on strings: strip whitespace, allow an
optional sign, then require one or more decimal digits; `none` models the
`ValueError` raised on malformed input. -/
def pythonInt? (s : String) : Option Int :=
  match trimChars s.toList with
  | [] => none
  | c :: rest =>
    if c = '-' then (parseDigits rest).map (fun n => -(Int.ofNat n))
    else if c = '+' then (parseDigits rest).map Int.ofNat
    else (parseDigits (c :: rest)).map Int.ofNat

/-- Model of Python's substring test `pat in s`. -/
def containsSub (pat s : String) : Bool :=
  s.toList.tails.any (fun t => pat.toList.isPrefixOf t)

/-- Association-list lookup, first binding wins (a directory maps file
names to files; an attribute table maps attribute names to values). -/
def assocLookup {α : Type} : List (String × α) → String → Option α
  | [], _ => none
  | (k', v) :: t, k => if k' = k then some v else assocLookup t k

/-- Association-list update: replace the first binding in place, or
append a new one. -/
def assocInsert {α : Type} : List (String × α) → String → α → List (String × α)
  | [], k, v => [(k, v)]
  | (k', v') :: t, k, v =>
    if k' = k then (k, v) :: t else (k', v') :: assocInsert t k v

/-- Association-list removal of every binding for a key. -/
def assocErase {α : Type} : List (String × α) → String → List (String × α)
  | [], _ => []
  | (k', v) :: t, k =>
    if k' = k then assocErase t k else (k', v) :: assocErase t k

/-- A regular file: its byte content (as a string), its extended
attributes, and its modification and access timestamps. -/
structure FSFile where
  content : String
  attrs : List (String × String)
  mtime : Nat
  atime : Nat
deriving DecidableEq

/-- A directory: file names bound to files, in listing order. -/
abbrev Directory := List (String × FSFile)

/-- The on-disk state of the image cache: the root path, the directory of
committed entries (which live directly under the root) and the four
auxiliary directories, plus a clock supplying strictly increasing
timestamps. -/
structure ImageCache where
  root : String
  main : Directory
  tmp : Directory
  invalid : Directory
  prefetch : Directory
  prefetching : Directory
  clock : Nat
deriving DecidableEq

/-- Modelled from the spec: the AttributeStore `set` operation
(`glance.utils.set_xattr` is not among the embedded sources). -/
def set_xattr (f : FSFile) (k v : String) : FSFile :=
  { f with attrs := assocInsert f.attrs k v }

/-- Modelled from the spec: the AttributeStore `get` operation with a
default (`glance.utils.get_xattr` is not among the embedded sources). -/
def get_xattr (f : FSFile) (k d : String) : String :=
  (assocLookup f.attrs k).getD d

/-- Modelled from the spec: the AttributeStore `increment` operation on an
integer-valued attribute (`glance.utils.inc_xattr` is not among the
embedded sources); a missing or malformed value counts as zero. -/
def inc_xattr (f : FSFile) (k : String) : FSFile :=
  set_xattr f k (strOfNat (((pythonInt? (get_xattr f k "0")).map Int.toNat).getD 0 + 1))

/-- `path_for_image`: the committed entry path `root/<id>`. -/
def path_for_image (st : ImageCache) (id : Nat) : String :=
  st.root ++ "/" ++ strOfNat id

/-- The `tmp` directory path `root/tmp`. -/
def tmp_path (st : ImageCache) : String := st.root ++ "/tmp"

/-- The `invalid` directory path `root/invalid`. -/
def invalid_path (st : ImageCache) : String := st.root ++ "/invalid"

/-- The `prefetch` directory path `root/prefetch`. -/
def prefetch_path (st : ImageCache) : String := st.root ++ "/prefetch"

/-- The `prefetching` directory path `root/prefetching`. -/
def prefetching_path (st : ImageCache) : String := st.root ++ "/prefetching"

/-- `hit(image_id)`: a file exists at `main/<id>`. -/
def hit (st : ImageCache) (id : Nat) : Bool :=
  (assocLookup st.main (strOfNat id)).isSome

/-- Truncate an existing file or create a fresh empty one, as Python's
`open(path, "w")` does; extended attributes of an existing file persist. -/
def truncated (old : Option FSFile) (now : Nat) : FSFile :=
  match old with
  | some f => { f with content := "", mtime := now }
  | none => { content := "", attrs := [], mtime := now, atime := now }

/-- Step one of `_open_write`: `open(tmp_path, mode)` creates the session
file under `tmp`. -/
def create_tmp_file (st : ImageCache) (id : Nat) : ImageCache :=
  { st with
    tmp := assocInsert st.tmp (strOfNat id)
      (truncated (assocLookup st.tmp (strOfNat id)) st.clock),
    clock := st.clock + 1 }

/-- Apply a function to the file at `tmp/<id>`, if present. -/
def with_tmp_file (st : ImageCache) (id : Nat) (g : FSFile → FSFile) : ImageCache :=
  match assocLookup st.tmp (strOfNat id) with
  | some f => { st with tmp := assocInsert st.tmp (strOfNat id) (g f) }
  | none => st

/-- The session body streaming its bytes into the open `tmp` file. -/
def write_tmp_body (st : ImageCache) (id : Nat) (w : String) : ImageCache :=
  with_tmp_file st id (fun f => { f with content := w })

/-- `set_xattr(tmp_path, key, value)` on the in-flight `tmp` file. -/
def set_tmp_xattr (st : ImageCache) (id : Nat) (k v : String) : ImageCache :=
  with_tmp_file st id (fun f => set_xattr f k v)

/-- The publishing rename `tmp/<id> → main/<id>` of `commit`
(`os.rename` moves the file together with its attributes). -/
def rename_tmp_to_main (st : ImageCache) (id : Nat) : ImageCache :=
  match assocLookup st.tmp (strOfNat id) with
  | some f =>
    { st with
      tmp := assocErase st.tmp (strOfNat id),
      main := assocInsert st.main (strOfNat id) f }
  | none => st

/-- The publishing rename `tmp/<id> → invalid/<id>` of `rollback`. -/
def rename_tmp_to_invalid (st : ImageCache) (id : Nat) : ImageCache :=
  match assocLookup st.tmp (strOfNat id) with
  | some f =>
    { st with
      tmp := assocErase st.tmp (strOfNat id),
      invalid := assocInsert st.invalid (strOfNat id) f }
  | none => st

/-- `_open_write(image_meta, mode)`: create the `tmp` file, run the
session body, then run exactly one of `commit` (normal exit: attach
`image_name` and `hits=0`, then rename to `main`) or `rollback(e)` (exit
via error: attach `image_name` and `error=str(e)`, then rename to
`invalid`, re-raising the error). `w` is the byte content the body
wrote; `err` is `some e` when the body raised an error described by `e`. -/
def open_write (st : ImageCache) (id : Nat) (name w : String) (err : Option String) :
    ImageCache × Except String Unit :=
  let s1 := create_tmp_file st id
  let s2 := write_tmp_body s1 id w
  match err with
  | none =>
    let s3 := set_tmp_xattr s2 id "image_name" name
    let s4 := set_tmp_xattr s3 id "hits" (strOfNat 0)
    (rename_tmp_to_main s4 id, Except.ok ())
  | some e =>
    let s3 := set_tmp_xattr s2 id "image_name" name
    let s4 := set_tmp_xattr s3 id "error" e
    (rename_tmp_to_invalid s4 id, Except.error e)

/-- The externally observable states of a committing write session up to
(and excluding) the publishing rename, in order: initial state, after
`open(tmp_path)`, after the body's writes, after attaching `image_name`,
after attaching `hits=0`. -/
def open_write_commit_trace (st : ImageCache) (id : Nat) (name w : String) :
    List ImageCache :=
  let s1 := create_tmp_file st id
  let s2 := write_tmp_body s1 id w
  let s3 := set_tmp_xattr s2 id "image_name" name
  let s4 := set_tmp_xattr s3 id "hits" (strOfNat 0)
  [st, s1, s2, s3, s4]

/-- Failure modes of a read session: `notFound` models the IOError of
opening an absent `main/<id>`; `bodyErr e` models a session body raising
an error described by `e`. -/
inductive ReadErr where
  | notFound
  | bodyErr (e : String)
deriving DecidableEq

/-- `_open_read(image_meta, mode)`: open `main/<id>` (`NotFound` when the
file is absent), run the body (`body = some e` models a body that raises
an error described by `e`, which propagates), and on normal close bump
the `hits` attribute by one. -/
def open_read (st : ImageCache) (id : Nat) (body : Option String) :
    ImageCache × Except ReadErr String :=
  match assocLookup st.main (strOfNat id) with
  | none => (st, Except.error ReadErr.notFound)
  | some f =>
    match body with
    | some e => (st, Except.error (ReadErr.bodyErr e))
    | none =>
      ({ st with main := assocInsert st.main (strOfNat id) (inc_xattr f "hits") },
       Except.ok f.content)

/-- `_delete_file(path)`: unlink the file if it exists. -/
def delete_file (d : Directory) (k : String) : Directory :=
  if (assocLookup d k).isSome then assocErase d k else d

/-- `purge(image_id)`: delete `main/<id>` if present. -/
def purge (st : ImageCache) (id : Nat) : ImageCache :=
  { st with main := delete_file st.main (strOfNat id) }

/-- `purge_all()`: delete every regular file directly under the root (the
committed entries; the subdirectories are not regular files and are
skipped by the `isfile` filter of `get_all_regular_files`) and every file
under `invalid`, leaving `tmp`, `prefetch` and `prefetching` untouched. -/
def purge_all (st : ImageCache) : ImageCache :=
  { st with
    main := st.main.foldl (fun d nf => delete_file d nf.1) st.main,
    invalid := st.invalid.foldl (fun d nf => delete_file d nf.1) st.invalid }

/-- `is_image_queued_for_prefetch(image_id)`: a marker exists at
`prefetch/<id>`. -/
def is_image_queued_for_prefetch (st : ImageCache) (id : Nat) : Bool :=
  (assocLookup st.prefetch (strOfNat id)).isSome

/-- `is_image_currently_prefetching(image_id)`: a marker exists at
`prefetching/<id>`. -/
def is_image_currently_prefetching (st : ImageCache) (id : Nat) : Bool :=
  (assocLookup st.prefetching (strOfNat id)).isSome

/-- The three `exception.Invalid` rejections of `queue_prefetch`, named
after the spec's error taxonomy. -/
inductive QueueErr where
  | alreadyCached
  | alreadyPrefetching
  | alreadyQueued
deriving DecidableEq

/-- `queue_prefetch(image_meta)`: reject when the image is already
cached, already being prefetched, or already queued (checked in that
order); otherwise touch a zero-byte marker in `prefetch` (its timestamp
is the creation time) and attach the `image_name` attribute. -/
def queue_prefetch (st : ImageCache) (id : Nat) (name : String) :
    Except QueueErr ImageCache :=
  if hit st id then Except.error QueueErr.alreadyCached
  else if is_image_currently_prefetching st id then Except.error QueueErr.alreadyPrefetching
  else if is_image_queued_for_prefetch st id then Except.error QueueErr.alreadyQueued
  else Except.ok
    { st with
      prefetch := assocInsert st.prefetch (strOfNat id)
        { content := "", attrs := [("image_name", name)],
          mtime := st.clock, atime := st.clock },
      clock := st.clock + 1 }

/-- Lexicographic comparison of character lists, modelling Python's
string ordering. -/
def listCharLt : List Char → List Char → Bool
  | [], [] => false
  | [], _ :: _ => true
  | _ :: _, [] => false
  | a :: as, b :: bs =>
    if a < b then true else if b < a then false else listCharLt as bs

/-- Ordering on `(mtime, path, basename)` items, as Python compares the
`(mtime, path)` tuples built by `pop_prefetch_item`. -/
def itemLt (a b : Nat × String × String) : Bool :=
  decide (a.1 < b.1) || (decide (a.1 = b.1) && listCharLt a.2.1.toList b.2.1.toList)

/-- Select the least item: `items.sort(reverse=True)` followed by
`items.pop()` returns the minimum of the distinct `(mtime, path)` keys. -/
def popMin : Nat × String × String → List (Nat × String × String) → Nat × String × String
  | cur, [] => cur
  | cur, y :: ys => popMin (if itemLt y cur then y else cur) ys

/-- The `(mtime, path, basename)` item built for one `prefetch` file (the
basename of `dir ++ "/" ++ name` is `name`, file names containing no
slash). -/
def prefetch_item (st : ImageCache) (nf : String × FSFile) : Nat × String × String :=
  (nf.2.mtime, prefetch_path st ++ "/" ++ nf.1, nf.1)

/-- `pop_prefetch_item()`: `none` models the `IndexError` raised on an
empty queue; otherwise return the basename of the queued file with the
oldest `(mtime, path)` key. The state is untouched (the function only
lists the directory). -/
def pop_prefetch_item (st : ImageCache) : Option String :=
  match st.prefetch.map (prefetch_item st) with
  | [] => none
  | x :: xs => some (popMin x xs).2.2

/-- A base entry descriptor produced by `_base_entries`: the parsed id,
the absolute path, the `image_name` attribute, the last-accessed
timestamp (access time, falling back to modification time when the
access time is zero, Python's falsy test) and the file size. -/
structure Entry where
  id : Int
  path : String
  name : String
  lastAccessed : Nat
  size : Nat
deriving DecidableEq

/-- Build the descriptor for one directory file: names that do not parse
as an ImageID (`int(filename)` raising `ValueError`) yield nothing and
are skipped silently. -/
def base_entry (basepath : String) (nf : String × FSFile) : Option Entry :=
  match pythonInt? nf.1 with
  | none => none
  | some i =>
    some
      { id := i,
        path := basepath ++ "/" ++ nf.1,
        name := get_xattr nf.2 "image_name" "UNKNOWN",
        lastAccessed := if nf.2.atime ≠ 0 then nf.2.atime else nf.2.mtime,
        size := nf.2.content.length }

/-- `_base_entries(basepath)` over a directory listing. -/
def base_entries (basepath : String) (d : Directory) : List Entry :=
  d.filterMap (base_entry basepath)

/-- An `entries()` record: base fields plus the `hits` attribute. -/
structure MainEntry where
  base : Entry
  hits : String
deriving DecidableEq

/-- An `invalid_entries()` record: base fields plus the `error`
attribute. -/
structure InvalidEntry where
  base : Entry
  error : String
deriving DecidableEq

/-- A `prefetch_entries()` record: base fields plus the computed
`status` field. -/
structure PrefetchEntry where
  base : Entry
  status : String
deriving DecidableEq

/-- `entries()`: descriptors for committed images (which live directly
under the root), enriched with the `hits` attribute. -/
def entries (st : ImageCache) : List MainEntry :=
  st.main.filterMap (fun nf =>
    (base_entry st.root nf).map (fun e => ⟨e, get_xattr nf.2 "hits" "UNKNOWN"⟩))

/-- `invalid_entries()`: descriptors for rolled-back images, enriched
with the `error` attribute. -/
def invalid_entries (st : ImageCache) : List InvalidEntry :=
  st.invalid.filterMap (fun nf =>
    (base_entry (invalid_path st) nf).map (fun e => ⟨e, get_xattr nf.2 "error" "UNKNOWN"⟩))

/-- `prefetch_entries()`: descriptors for queued and in-progress prefetch
markers; the status is computed by the substring test
`'prefetching' in path` on each entry's full path. -/
def prefetch_entries (st : ImageCache) : List PrefetchEntry :=
  (base_entries (prefetch_path st) st.prefetch ++
   base_entries (prefetching_path st) st.prefetching).map
    (fun e => ⟨e, if containsSub "prefetching" e.path then "in-progress" else "queued"⟩)

/-- A cache root with all directories empty. -/
def emptyCache (root : String) : ImageCache :=
  { root := root, main := [], tmp := [], invalid := [],
    prefetch := [], prefetching := [], clock := 0 }

/-! Association-list lemmas. -/

@[simp]
theorem assocLookup_nil {α : Type} (k : String) :
    assocLookup ([] : List (String × α)) k = none := rfl

@[simp]
theorem assocLookup_insert_self {α : Type} (l : List (String × α)) (k : String) (v : α) :
    assocLookup (assocInsert l k v) k = some v := by
  induction l with
  | nil => simp [assocInsert, assocLookup]
  | cons hd t ih =>
    obtain ⟨k', v'⟩ := hd
    by_cases h : k' = k
    · simp [assocInsert, assocLookup, h]
    · simp [assocInsert, assocLookup, h, ih]

theorem assocLookup_insert_ne {α : Type} (l : List (String × α)) (k k' : String) (v : α)
    (h : k' ≠ k) : assocLookup (assocInsert l k v) k' = assocLookup l k' := by
  have hk : k ≠ k' := Ne.symm h
  induction l with
  | nil => simp [assocInsert, assocLookup, hk]
  | cons hd t ih =>
    obtain ⟨k₀, v₀⟩ := hd
    by_cases h₀ : k₀ = k
    · subst h₀
      simp [assocInsert, assocLookup, hk]
    · simp [assocInsert, assocLookup, h₀, ih]

theorem mem_assocInsert_self {α : Type} (l : List (String × α)) (k : String) (v : α) :
    (k, v) ∈ assocInsert l k v := by
  induction l with
  | nil => simp [assocInsert]
  | cons hd t ih =>
    obtain ⟨k', v'⟩ := hd
    by_cases h : k' = k
    · simp [assocInsert, h]
    · simp only [assocInsert, if_neg h, List.mem_cons]
      exact Or.inr ih

theorem mem_assocErase {α : Type} (l : List (String × α)) (k : String) (x : String × α) :
    x ∈ assocErase l k ↔ x ∈ l ∧ x.1 ≠ k := by
  induction l with
  | nil => simp [assocErase]
  | cons hd t ih =>
    obtain ⟨k', v'⟩ := hd
    by_cases h : k' = k
    · rw [show assocErase ((k', v') :: t) k = assocErase t k by simp [assocErase, h], ih]
      constructor
      · rintro ⟨hx, hne⟩
        exact ⟨List.mem_cons_of_mem _ hx, hne⟩
      · rintro ⟨hx, hne⟩
        rcases List.mem_cons.mp hx with heq | hx'
        · exact absurd (show x.1 = k by rw [heq]; exact h) hne
        · exact ⟨hx', hne⟩
    · rw [show assocErase ((k', v') :: t) k = (k', v') :: assocErase t k by
        simp [assocErase, h]]
      constructor
      · intro hx
        rcases List.mem_cons.mp hx with heq | hx'
        · exact ⟨List.mem_cons.mpr (Or.inl heq), by rw [heq]; exact h⟩
        · obtain ⟨hm, hne⟩ := ih.mp hx'
          exact ⟨List.mem_cons_of_mem _ hm, hne⟩
      · rintro ⟨hx, hne⟩
        rcases List.mem_cons.mp hx with heq | hx'
        · exact List.mem_cons.mpr (Or.inl heq)
        · exact List.mem_cons.mpr (Or.inr (ih.mpr ⟨hx', hne⟩))

@[simp]
theorem assocLookup_erase_self {α : Type} (l : List (String × α)) (k : String) :
    assocLookup (assocErase l k) k = none := by
  induction l with
  | nil => simp [assocErase]
  | cons hd t ih =>
    obtain ⟨k', v'⟩ := hd
    by_cases h : k' = k
    · simp [assocErase, h, ih]
    · simp [assocErase, assocLookup, h, ih]

theorem assocErase_of_lookup_none {α : Type} (l : List (String × α)) (k : String)
    (h : assocLookup l k = none) : assocErase l k = l := by
  induction l with
  | nil => rfl
  | cons hd t ih =>
    obtain ⟨k', v'⟩ := hd
    by_cases h' : k' = k
    · simp [assocLookup, h'] at h
    · simp only [assocLookup, if_neg h'] at h
      simp [assocErase, h', ih h]

/-! Decimal rendering and parsing lemmas. -/

theorem pyDigit_digitChar (n : Nat) : pyDigit (digitChar n) = true := by
  unfold digitChar
  split_ifs <;> decide

theorem digitVal_digitChar (n : Nat) (h : n < 10) : digitVal (digitChar n) = n := by
  unfold digitChar
  split_ifs with h0 h1 h2 h3 h4 h5 h6 h7 h8
  · subst h0; decide
  · subst h1; decide
  · subst h2; decide
  · subst h3; decide
  · subst h4; decide
  · subst h5; decide
  · subst h6; decide
  · subst h7; decide
  · subst h8; decide
  · have h9 : n = 9 := by omega
    subst h9; decide

theorem renderNatGo_ne_nil (fuel n : Nat) (h : n < fuel) : renderNatGo fuel n ≠ [] := by
  cases fuel with
  | zero => omega
  | succ f =>
    by_cases h10 : n < 10 <;> simp [renderNatGo, h10]

theorem renderNatGo_all_digits (fuel : Nat) :
    ∀ n, n < fuel → ∀ c ∈ renderNatGo fuel n, pyDigit c = true := by
  induction fuel with
  | zero => intro n h; omega
  | succ f ih =>
    intro n h c hc
    by_cases h10 : n < 10
    · simp only [renderNatGo, if_pos h10, List.mem_singleton] at hc
      subst hc; exact pyDigit_digitChar n
    · have hd : n / 10 < n := Nat.div_lt_self (by omega) (by omega)
      have hf : n / 10 < f := by omega
      simp only [renderNatGo, if_neg h10, List.mem_append, List.mem_singleton] at hc
      rcases hc with hc | hc
      · exact ih (n / 10) hf c hc
      · subst hc; exact pyDigit_digitChar (n % 10)

theorem parseDigitsAux_append (xs : List Char) :
    ∀ (acc : Nat) (ys : List Char),
      parseDigitsAux acc (xs ++ ys) =
        (parseDigitsAux acc xs).bind (fun m => parseDigitsAux m ys) := by
  induction xs with
  | nil => intro acc ys; simp [parseDigitsAux]
  | cons c cs ih =>
    intro acc ys
    by_cases h : pyDigit c
    · simp [parseDigitsAux, h, ih]
    · simp [parseDigitsAux, h]

theorem parseDigitsAux_renderNatGo (fuel : Nat) :
    ∀ n acc, n < fuel →
      parseDigitsAux acc (renderNatGo fuel n) =
        some (acc * 10 ^ (renderNatGo fuel n).length + n) := by
  induction fuel with
  | zero => intro n acc h; omega
  | succ f ih =>
    intro n acc h
    by_cases h10 : n < 10
    · simp only [renderNatGo, if_pos h10, parseDigitsAux, pyDigit_digitChar, if_pos,
        digitVal_digitChar n h10, List.length_singleton]
      norm_num
    · have hd : n / 10 < n := Nat.div_lt_self (by omega) (by omega)
      have hf : n / 10 < f := by omega
      have hm : n % 10 < 10 := Nat.mod_lt n (by omega)
      have hgo : renderNatGo (f + 1) n =
          renderNatGo f (n / 10) ++ [digitChar (n % 10)] := by
        simp [renderNatGo, h10]
      have key : ∀ m : Nat, (m * 10 ^ (renderNatGo f (n / 10)).length + n / 10) * 10 + n % 10 =
          m * 10 ^ ((renderNatGo f (n / 10)).length + 1) + n := by
        intro m
        have hdm : 10 * (n / 10) + n % 10 = n := Nat.div_add_mod n 10
        calc (m * 10 ^ (renderNatGo f (n / 10)).length + n / 10) * 10 + n % 10
            = m * (10 ^ (renderNatGo f (n / 10)).length * 10) +
              (10 * (n / 10) + n % 10) := by ring
          _ = m * 10 ^ ((renderNatGo f (n / 10)).length + 1) + n := by
              rw [hdm, pow_succ]
      rw [hgo, parseDigitsAux_append, ih (n / 10) acc hf]
      simp [parseDigitsAux, pyDigit_digitChar, digitVal_digitChar (n % 10) hm, key acc]

theorem pyDigit_not_pySpace (c : Char) (h : pyDigit c = true) : pySpace c = false := by
  by_contra h'
  have h2 : pySpace c = true := by
    cases hp : pySpace c
    · exact absurd hp h'
    · rfl
  simp only [pySpace, decide_eq_true_eq] at h2
  rcases h2 with rfl | rfl | rfl | rfl | rfl | rfl <;> exact absurd h (by decide)

theorem dropWhile_pySpace_of_digits (cs : List Char)
    (h : ∀ c ∈ cs, pyDigit c = true) : cs.dropWhile pySpace = cs := by
  cases cs with
  | nil => rfl
  | cons c t =>
    rw [List.dropWhile_cons]
    simp [pyDigit_not_pySpace c (h c (by simp))]

theorem trimChars_of_digits (cs : List Char)
    (h : ∀ c ∈ cs, pyDigit c = true) : trimChars cs = cs := by
  unfold trimChars
  rw [dropWhile_pySpace_of_digits cs h,
      dropWhile_pySpace_of_digits cs.reverse (fun c hc => h c (List.mem_reverse.mp hc)),
      List.reverse_reverse]

theorem pythonInt?_strOfNat (n : Nat) : pythonInt? (strOfNat n) = some (n : Int) := by
  have hlt : n < n + 1 := Nat.lt_succ_self n
  have hdig := renderNatGo_all_digits (n + 1) n hlt
  have hne := renderNatGo_ne_nil (n + 1) n hlt
  have htl : (strOfNat n).toList = renderNatGo (n + 1) n := rfl
  unfold pythonInt?
  rw [htl, trimChars_of_digits _ hdig]
  cases hcs : renderNatGo (n + 1) n with
  | nil => exact absurd hcs hne
  | cons c rest =>
    have hc : pyDigit c = true := hdig c (by rw [hcs]; simp)
    have hcm : c ≠ '-' := by
      intro heq
      rw [heq] at hc
      exact absurd hc (by decide)
    have hcp : c ≠ '+' := by
      intro heq
      rw [heq] at hc
      exact absurd hc (by decide)
    simp only [if_neg hcm, if_neg hcp]
    have hparse : parseDigits (c :: rest) = some n := by
      have := parseDigitsAux_renderNatGo (n + 1) n 0 hlt
      rw [hcs] at this
      simpa [parseDigits] using this
    simp [hparse]

theorem strOfNat_injective (a b : Nat) (h : strOfNat a = strOfNat b) : a = b := by
  have ha := pythonInt?_strOfNat a
  have hb := pythonInt?_strOfNat b
  rw [h, hb] at ha
  exact_mod_cast ((Option.some.injEq _ _).mp ha).symm

/-! String, substring and parser side lemmas. -/

theorem strToList_append (a b : String) : (a ++ b).toList = a.toList ++ b.toList := by
  cases a
  cases b
  rfl

theorem parseDigitsAux_digits (cs : List Char) :
    ∀ acc m, parseDigitsAux acc cs = some m → ∀ c ∈ cs, pyDigit c = true := by
  induction cs with
  | nil =>
    intro acc m _ c hc
    simp at hc
  | cons c0 t ih =>
    intro acc m hp c hc
    by_cases h : pyDigit c0 = true
    · simp only [parseDigitsAux, if_pos h] at hp
      rcases List.mem_cons.mp hc with heq | hc'
      · rw [heq]; exact h
      · exact ih _ m hp c hc'
    · simp [parseDigitsAux, h] at hp

theorem parseDigits_digits (cs : List Char) (m : Nat) (h : parseDigits cs = some m) :
    ∀ c ∈ cs, pyDigit c = true := by
  cases cs with
  | nil => intro c hc; simp at hc
  | cons c0 t =>
    intro c hc
    exact parseDigitsAux_digits (c0 :: t) 0 m h c hc

theorem mem_trimChars (cs : List Char) (c : Char) (hc : c ∈ cs) :
    pySpace c = true ∨ c ∈ trimChars cs := by
  have h1 : c ∈ cs.takeWhile pySpace ∨ c ∈ cs.dropWhile pySpace := by
    rw [← List.mem_append, List.takeWhile_append_dropWhile]
    exact hc
  rcases h1 with h1 | h1
  · exact Or.inl (List.mem_takeWhile_imp h1)
  · have h2 : c ∈ (cs.dropWhile pySpace).reverse := List.mem_reverse.mpr h1
    have h3 : c ∈ (cs.dropWhile pySpace).reverse.takeWhile pySpace ∨
        c ∈ (cs.dropWhile pySpace).reverse.dropWhile pySpace := by
      rw [← List.mem_append, List.takeWhile_append_dropWhile]
      exact h2
    rcases h3 with h3 | h3
    · exact Or.inl (List.mem_takeWhile_imp h3)
    · exact Or.inr (List.mem_reverse.mpr h3)

theorem pythonInt?_chars (s : String) (i : Int) (h : pythonInt? s = some i) :
    ∀ c ∈ s.toList, pySpace c = true ∨ c = '+' ∨ c = '-' ∨ pyDigit c = true := by
  intro c hc
  rcases mem_trimChars s.toList c hc with hs | ht
  · exact Or.inl hs
  · unfold pythonInt? at h
    rcases hcs : trimChars s.toList with _ | ⟨c0, rest⟩
    · rw [hcs] at ht
      simp at ht
    · rw [hcs] at h ht
      have h' : (if c0 = '-' then (parseDigits rest).map (fun n => -(Int.ofNat n))
          else if c0 = '+' then (parseDigits rest).map Int.ofNat
          else (parseDigits (c0 :: rest)).map Int.ofNat) = some i := h
      by_cases hm : c0 = '-'
      · rw [if_pos hm] at h'
        obtain ⟨n, hn, _⟩ := Option.map_eq_some'.mp h'
        rcases List.mem_cons.mp ht with heq | hcr
        · rw [heq, hm]
          exact Or.inr (Or.inr (Or.inl rfl))
        · exact Or.inr (Or.inr (Or.inr (parseDigits_digits rest n hn c hcr)))
      · rw [if_neg hm] at h'
        by_cases hp : c0 = '+'
        · rw [if_pos hp] at h'
          obtain ⟨n, hn, _⟩ := Option.map_eq_some'.mp h'
          rcases List.mem_cons.mp ht with heq | hcr
          · rw [heq, hp]
            exact Or.inr (Or.inl rfl)
          · exact Or.inr (Or.inr (Or.inr (parseDigits_digits rest n hn c hcr)))
        · rw [if_neg hp] at h'
          obtain ⟨n, hn, _⟩ := Option.map_eq_some'.mp h'
          exact Or.inr (Or.inr (Or.inr (parseDigits_digits (c0 :: rest) n hn c ht)))

theorem pythonInt?_no_g (s : String) (i : Int) (h : pythonInt? s = some i) :
    'g' ∉ s.toList := by
  intro hg
  rcases pythonInt?_chars s i h 'g' hg with hs | hp | hm | hd
  · exact absurd hs (by decide)
  · exact absurd hp (by decide)
  · exact absurd hm (by decide)
  · exact absurd hd (by decide)

theorem containsSub_iff (pat s : String) :
    containsSub pat s = true ↔ pat.toList <:+: s.toList := by
  unfold containsSub
  rw [List.any_eq_true]
  constructor
  · rintro ⟨t, ht, hp⟩
    have hsuf : t <:+ s.toList := (List.mem_tails _ _).mp ht
    have hpre : pat.toList <+: t := List.isPrefixOf_iff_prefix.mp hp
    exact List.infix_iff_prefix_suffix.mpr ⟨t, hpre, hsuf⟩
  · intro h
    obtain ⟨t, hpre, hsuf⟩ := List.infix_iff_prefix_suffix.mp h
    exact ⟨t, (List.mem_tails _ _).mpr hsuf, List.isPrefixOf_iff_prefix.mpr hpre⟩

theorem not_infix_append (pat root tail : List Char) (c : Char)
    (hlast : pat.getLast? = some c) (h1 : ¬ pat <:+: root) (h2 : c ∉ tail) :
    ¬ pat <:+: (root ++ tail) := by
  rintro ⟨a, b, hab⟩
  have hpne : pat ≠ [] := by
    intro hp
    rw [hp] at hlast
    simp at hlast
  have hplen : 0 < pat.length := List.length_pos.mpr hpne
  by_cases hle : a.length + pat.length ≤ root.length
  · apply h1
    obtain ⟨k, hk⟩ : ∃ k, root.length = (a ++ pat).length + k :=
      ⟨root.length - (a.length + pat.length), by
        rw [List.length_append]
        omega⟩
    have h4 : ((a ++ pat) ++ b).take ((a ++ pat).length + k) = (a ++ pat) ++ b.take k :=
      List.take_append k
    have h5 : (root ++ tail).take root.length = root := List.take_left root tail
    have h3 : root = (a ++ pat) ++ b.take k := by
      rw [← h5, ← hab, hk]
      exact h4
    exact ⟨a, b.take k, h3.symm⟩
  · have hroot : root.length ≤ a.length + (pat.length - 1) := by omega
    have hval : ((a ++ pat) ++ b)[a.length + (pat.length - 1)]? = some c := by
      rw [List.getElem?_append_left
        (show a.length + (pat.length - 1) < (a ++ pat).length by
          rw [List.length_append]
          omega)]
      rw [List.getElem?_append_right
        (show a.length ≤ a.length + (pat.length - 1) by omega)]
      rw [show a.length + (pat.length - 1) - a.length = pat.length - 1 by omega]
      rw [← List.getLast?_eq_getElem?]
      exact hlast
    rw [hab, List.getElem?_append_right hroot] at hval
    exact h2 (List.getElem?_mem hval)

/-! Minimum selection, listing length and deletion lemmas. -/

theorem itemLt_le (y c : Nat × String × String) (h : itemLt y c = true) : y.1 ≤ c.1 := by
  simp only [itemLt, Bool.or_eq_true, Bool.and_eq_true, decide_eq_true_eq] at h
  rcases h with h | ⟨h, _⟩
  · omega
  · omega

theorem itemLt_ge (y c : Nat × String × String) (h : itemLt y c = false) : c.1 ≤ y.1 := by
  by_contra hcy
  push_neg at hcy
  have ht : itemLt y c = true := by
    simp [itemLt, hcy]
  rw [h] at ht
  exact Bool.noConfusion ht

theorem popMin_spec (ys : List (Nat × String × String)) :
    ∀ cur, (popMin cur ys = cur ∨ popMin cur ys ∈ ys) ∧
      (popMin cur ys).1 ≤ cur.1 ∧ ∀ y ∈ ys, (popMin cur ys).1 ≤ y.1 := by
  induction ys with
  | nil =>
    intro cur
    exact ⟨Or.inl rfl, le_refl _, by simp⟩
  | cons y t ih =>
    intro cur
    by_cases hlt : itemLt y cur = true
    · obtain ⟨hmem, hle, hall⟩ := ih y
      have hstep : popMin cur (y :: t) = popMin y t := by
        simp [popMin, hlt]
      refine ⟨?_, ?_, ?_⟩
      · rw [hstep]
        rcases hmem with h | h
        · exact Or.inr (List.mem_cons.mpr (Or.inl h))
        · exact Or.inr (List.mem_cons_of_mem _ h)
      · rw [hstep]
        exact le_trans hle (itemLt_le y cur hlt)
      · intro z hz
        rw [hstep]
        rcases List.mem_cons.mp hz with heq | hz'
        · rw [heq]
          exact hle
        · exact hall z hz'
    · have hfalse : itemLt y cur = false := by
        cases hb : itemLt y cur
        · rfl
        · exact absurd hb hlt
      obtain ⟨hmem, hle, hall⟩ := ih cur
      have hstep : popMin cur (y :: t) = popMin cur t := by
        simp [popMin, hfalse]
      refine ⟨?_, ?_, ?_⟩
      · rw [hstep]
        rcases hmem with h | h
        · exact Or.inl h
        · exact Or.inr (List.mem_cons_of_mem _ h)
      · rw [hstep]
        exact hle
      · intro z hz
        rw [hstep]
        rcases List.mem_cons.mp hz with heq | hz'
        · rw [heq]
          exact le_trans hle (itemLt_ge y cur hfalse)
        · exact hall z hz'

theorem length_filterMap_isSome {α β : Type} (f : α → Option β) (l : List α) :
    (l.filterMap f).length = (l.filter (fun a => (f a).isSome)).length := by
  induction l with
  | nil => rfl
  | cons a t ih =>
    cases hf : f a with
    | none => simp [List.filterMap_cons, List.filter_cons, hf, ih]
    | some b => simp [List.filterMap_cons, List.filter_cons, hf, ih]

theorem delete_file_eq_erase (d : Directory) (k : String) :
    delete_file d k = assocErase d k := by
  unfold delete_file
  cases hl : assocLookup d k with
  | none => simp [assocErase_of_lookup_none d k hl]
  | some v => simp

theorem foldl_delete_file_eq_nil (l : List (String × FSFile)) :
    ∀ d : Directory, (∀ x ∈ d, ∃ y ∈ l, y.1 = x.1) →
      l.foldl (fun acc nf => delete_file acc nf.1) d = [] := by
  induction l with
  | nil =>
    intro d h
    cases d with
    | nil => rfl
    | cons x t =>
      obtain ⟨y, hy, _⟩ := h x (by simp)
      simp at hy
  | cons a l' ih =>
    intro d h
    simp only [List.foldl_cons]
    apply ih
    intro x hx
    rw [delete_file_eq_erase] at hx
    obtain ⟨hxd, hne⟩ := (mem_assocErase d a.1 x).mp hx
    obtain ⟨y, hy, hyx⟩ := h x hxd
    rcases List.mem_cons.mp hy with heq | hy'
    · rw [heq] at hyx
      exact absurd hyx.symm hne
    · exact ⟨y, hy', hyx⟩

theorem mem_base_entries (bp : String) (d : Directory) (e : Entry)
    (h : e ∈ base_entries bp d) :
    ∃ nf ∈ d, pythonInt? nf.1 = some e.id ∧ e.path = bp ++ "/" ++ nf.1 := by
  obtain ⟨nf, hnf, hbe⟩ := List.mem_filterMap.mp h
  unfold base_entry at hbe
  cases hp : pythonInt? nf.1 with
  | none =>
    rw [hp] at hbe
    exact absurd hbe (by simp)
  | some i =>
    rw [hp] at hbe
    simp only [Option.some.injEq] at hbe
    subst hbe
    exact ⟨nf, hnf, by rw [hp], rfl⟩

theorem base_entry_isSome (bp : String) (nf : String × FSFile) :
    (base_entry bp nf).isSome = (pythonInt? nf.1).isSome := by
  unfold base_entry
  cases pythonInt? nf.1 with
  | none => rfl
  | some i => rfl

/-! Write-session pipeline lemmas. -/

theorem create_tmp_file_main (st : ImageCache) (id : Nat) :
    (create_tmp_file st id).main = st.main := rfl

theorem create_tmp_file_invalid (st : ImageCache) (id : Nat) :
    (create_tmp_file st id).invalid = st.invalid := rfl

theorem create_tmp_file_tmp (st : ImageCache) (id : Nat) :
    (create_tmp_file st id).tmp =
      assocInsert st.tmp (strOfNat id)
        (truncated (assocLookup st.tmp (strOfNat id)) st.clock) := rfl

theorem with_tmp_file_main (st : ImageCache) (id : Nat) (g : FSFile → FSFile) :
    (with_tmp_file st id g).main = st.main := by
  unfold with_tmp_file
  cases assocLookup st.tmp (strOfNat id) <;> rfl

theorem with_tmp_file_invalid (st : ImageCache) (id : Nat) (g : FSFile → FSFile) :
    (with_tmp_file st id g).invalid = st.invalid := by
  unfold with_tmp_file
  cases assocLookup st.tmp (strOfNat id) <;> rfl

theorem with_tmp_file_root (st : ImageCache) (id : Nat) (g : FSFile → FSFile) :
    (with_tmp_file st id g).root = st.root := by
  unfold with_tmp_file
  cases assocLookup st.tmp (strOfNat id) <;> rfl

theorem with_tmp_file_tmp (st : ImageCache) (id : Nat) (g : FSFile → FSFile) (f : FSFile)
    (h : assocLookup st.tmp (strOfNat id) = some f) :
    (with_tmp_file st id g).tmp = assocInsert st.tmp (strOfNat id) (g f) := by
  unfold with_tmp_file
  rw [h]

theorem set_xattr_content (f : FSFile) (k v : String) :
    (set_xattr f k v).content = f.content := rfl

/-- The `tmp` file of a committing or rolling-back write session just
before its publishing rename: content as written by the body, with
`image_name` and then one further attribute attached. -/
theorem open_write_s4 (st : ImageCache) (id : Nat) (name w ak av : String) :
    (set_tmp_xattr (set_tmp_xattr (write_tmp_body (create_tmp_file st id) id w)
        id "image_name" name) id ak av).tmp =
      assocInsert st.tmp (strOfNat id)
        (set_xattr (set_xattr
          { truncated (assocLookup st.tmp (strOfNat id)) st.clock with content := w }
          "image_name" name) ak av) ∧
    (set_tmp_xattr (set_tmp_xattr (write_tmp_body (create_tmp_file st id) id w)
        id "image_name" name) id ak av).main = st.main ∧
    (set_tmp_xattr (set_tmp_xattr (write_tmp_body (create_tmp_file st id) id w)
        id "image_name" name) id ak av).invalid = st.invalid := by
  set k := strOfNat id with hk
  set f1 := truncated (assocLookup st.tmp k) st.clock with hf1
  have h1 : assocLookup (create_tmp_file st id).tmp k = some f1 := by
    rw [create_tmp_file_tmp]
    exact assocLookup_insert_self _ _ _
  set s2 := write_tmp_body (create_tmp_file st id) id w with hs2
  have h2tmp : s2.tmp = assocInsert (create_tmp_file st id).tmp k { f1 with content := w } := by
    rw [hs2]
    exact with_tmp_file_tmp _ _ _ _ h1
  have h2 : assocLookup s2.tmp k = some { f1 with content := w } := by
    rw [h2tmp]
    exact assocLookup_insert_self _ _ _
  set s3 := set_tmp_xattr s2 id "image_name" name with hs3
  have h3tmp : s3.tmp = assocInsert s2.tmp k (set_xattr { f1 with content := w } "image_name" name) := by
    rw [hs3]
    exact with_tmp_file_tmp _ _ _ _ h2
  have h3 : assocLookup s3.tmp k = some (set_xattr { f1 with content := w } "image_name" name) := by
    rw [h3tmp]
    exact assocLookup_insert_self _ _ _
  set s4 := set_tmp_xattr s3 id ak av with hs4
  have h4tmp : s4.tmp = assocInsert s3.tmp k
      (set_xattr (set_xattr { f1 with content := w } "image_name" name) ak av) := by
    rw [hs4]
    exact with_tmp_file_tmp _ _ _ _ h3
  refine ⟨?_, ?_, ?_⟩
  · rw [h4tmp, h3tmp, h2tmp, create_tmp_file_tmp]
    -- collapse repeated inserts at the same key
    have collapse : ∀ (l : List (String × FSFile)) (a b : FSFile),
        assocInsert (assocInsert l k a) k b = assocInsert l k b := by
      intro l a b
      induction l with
      | nil => simp [assocInsert]
      | cons hd t ih =>
        obtain ⟨k', v'⟩ := hd
        by_cases hkk : k' = k
        · simp [assocInsert, hkk]
        · simp [assocInsert, hkk, ih]
    rw [collapse, collapse, collapse]
  · rw [hs4, hs3, hs2]
    rw [set_tmp_xattr, set_tmp_xattr, write_tmp_body]
    rw [with_tmp_file_main, with_tmp_file_main, with_tmp_file_main, create_tmp_file_main]
  · rw [hs4, hs3, hs2]
    rw [set_tmp_xattr, set_tmp_xattr, write_tmp_body]
    rw [with_tmp_file_invalid, with_tmp_file_invalid, with_tmp_file_invalid,
      create_tmp_file_invalid]

theorem get_xattr_set_self (f : FSFile) (k v d : String) :
    get_xattr (set_xattr f k v) k d = v := by
  unfold get_xattr set_xattr
  simp

theorem get_xattr_set_ne (f : FSFile) (k k' v d : String) (h : k' ≠ k) :
    get_xattr (set_xattr f k v) k' d = get_xattr f k' d := by
  unfold get_xattr set_xattr
  simp [assocLookup_insert_ne _ _ _ _ h]

/-- C1: a write session whose body completes normally commits: the
attributes `image_name=n` and `hits=0` are attached to the `tmp` file and
the single rename `tmp/id → main/id` publishes it. Afterwards the session
reports success, `hit(id)` is true, the committed file carries the
written bytes and both attributes, no file remains at `tmp/id`, and in
every state prior to the rename (initial, after open, after the body's
writes, after each attribute) the `main` directory is unchanged, so
nothing is visible at `main` before the publishing rename. -/
theorem C1_commit_publishes (st : ImageCache) (id : Nat) (name w : String) :
    (open_write st id name w none).2 = Except.ok () ∧
    hit (open_write st id name w none).1 id = true ∧
    assocLookup (open_write st id name w none).1.tmp (strOfNat id) = none ∧
    (∃ f, assocLookup (open_write st id name w none).1.main (strOfNat id) = some f ∧
      f.content = w ∧
      get_xattr f "image_name" "UNKNOWN" = name ∧
      get_xattr f "hits" "UNKNOWN" = strOfNat 0) ∧
    ∀ s ∈ open_write_commit_trace st id name w, s.main = st.main := by
  obtain ⟨h4tmp, h4main, h4inv⟩ := open_write_s4 st id name w "hits" (strOfNat 0)
  set f4 := set_xattr (set_xattr
      { truncated (assocLookup st.tmp (strOfNat id)) st.clock with content := w }
      "image_name" name) "hits" (strOfNat 0) with hf4
  set s4 := set_tmp_xattr (set_tmp_xattr (write_tmp_body (create_tmp_file st id) id w)
      id "image_name" name) id "hits" (strOfNat 0) with hs4
  have h4look : assocLookup s4.tmp (strOfNat id) = some f4 := by
    rw [h4tmp]
    exact assocLookup_insert_self _ _ _
  have heq : open_write st id name w none = (rename_tmp_to_main s4 id, Except.ok ()) := rfl
  have hrn : rename_tmp_to_main s4 id =
      { s4 with tmp := assocErase s4.tmp (strOfNat id),
                main := assocInsert s4.main (strOfNat id) f4 } := by
    unfold rename_tmp_to_main
    rw [h4look]
  rw [heq, hrn]
  refine ⟨rfl, ?_, ?_, ?_, ?_⟩
  · simp [hit]
  · simp
  · refine ⟨f4, by simp, ?_, ?_, ?_⟩
    · rw [hf4, set_xattr_content, set_xattr_content]
    · rw [hf4, get_xattr_set_ne _ _ _ _ _ (by decide), get_xattr_set_self]
    · rw [hf4, get_xattr_set_self]
  · intro s hs
    have hm1 : (create_tmp_file st id).main = st.main := rfl
    have hm2 : (write_tmp_body (create_tmp_file st id) id w).main = st.main := by
      rw [write_tmp_body, with_tmp_file_main, hm1]
    have hm3 : (set_tmp_xattr (write_tmp_body (create_tmp_file st id) id w)
        id "image_name" name).main = st.main := by
      rw [set_tmp_xattr, with_tmp_file_main, hm2]
    simp only [open_write_commit_trace, List.mem_cons, List.not_mem_nil, or_false] at hs
    rcases hs with rfl | rfl | rfl | rfl | rfl
    · rfl
    · exact hm1
    · exact hm2
    · exact hm3
    · exact h4main

/-- Witness for C1 at a concrete session: the trace-membership hypothesis
is discharged at the initial state of a session on an empty cache. -/
theorem C1_commit_publishes_witness :
    hit (open_write (emptyCache "/c") 3 "img" "abc" none).1 3 = true ∧
    emptyCache "/c" ∈ open_write_commit_trace (emptyCache "/c") 3 "img" "abc" ∧
    (emptyCache "/c").main = (emptyCache "/c").main :=
  ⟨(C1_commit_publishes (emptyCache "/c") 3 "img" "abc").2.1,
   by simp [open_write_commit_trace],
   (C1_commit_publishes (emptyCache "/c") 3 "img" "abc").2.2.2.2 (emptyCache "/c")
     (by simp [open_write_commit_trace])⟩

/-- C2 (claim as stated is refuted): a rollback with an empty error
description (`str(e) = ""`, as for `Exception()`) leaves the invalid
entry for the id with an empty `error` field, so `invalid_entries()` does
not contain the id with a non-empty error; and a rollback for an id that
already had a committed file leaves `hit(id)` true, not false. -/
theorem C2_rollback_counterexample :
    ((open_write (emptyCache "/c") 7 "img" "xyz" (some "")).2 = Except.error "" ∧
      ∀ ent ∈ invalid_entries (open_write (emptyCache "/c") 7 "img" "xyz" (some "")).1,
        ¬ (ent.base.id = (7 : Int) ∧ ent.error ≠ "")) ∧
    hit (open_write
      { root := "/c", main := [("7", ⟨"old", [], 0, 0⟩)], tmp := [], invalid := [],
        prefetch := [], prefetching := [], clock := 1 } 7 "img" "xyz"
      (some "boom")).1 7 = true := by
  refine ⟨⟨rfl, ?_⟩, ?_⟩
  · decide
  · decide

/-- C2 (amended): for every write session whose body raises an error
described by `e`, rollback attaches `image_name` and `error=e` to the
`tmp` file, renames it to `invalid/id`, and re-raises. Unconditionally:
the session reports the original error (never swallowed), no file
remains at `tmp/id`, and `invalid_entries()` contains the id with error
field equal to `e` (even when `e` is empty). Additionally, `hit(id)` is
false provided no file was already committed at `main/id`, and the
contained error field is non-empty whenever `e` is non-empty. -/
theorem C2_rollback_publishes_invalid (st : ImageCache) (id : Nat) (name w e : String) :
    (open_write st id name w (some e)).2 = Except.error e ∧
    assocLookup (open_write st id name w (some e)).1.tmp (strOfNat id) = none ∧
    (assocLookup st.main (strOfNat id) = none →
      hit (open_write st id name w (some e)).1 id = false) ∧
    (∃ ent ∈ invalid_entries (open_write st id name w (some e)).1,
      ent.base.id = (id : Int) ∧ ent.error = e) ∧
    (e ≠ "" →
      ∃ ent ∈ invalid_entries (open_write st id name w (some e)).1,
        ent.base.id = (id : Int) ∧ ent.error = e ∧ ent.error ≠ "") := by
  obtain ⟨h4tmp, h4main, h4inv⟩ := open_write_s4 st id name w "error" e
  set f4 := set_xattr (set_xattr
      { truncated (assocLookup st.tmp (strOfNat id)) st.clock with content := w }
      "image_name" name) "error" e with hf4
  set s4 := set_tmp_xattr (set_tmp_xattr (write_tmp_body (create_tmp_file st id) id w)
      id "image_name" name) id "error" e with hs4
  have h4look : assocLookup s4.tmp (strOfNat id) = some f4 := by
    rw [h4tmp]
    exact assocLookup_insert_self _ _ _
  have heq : open_write st id name w (some e) =
      (rename_tmp_to_invalid s4 id, Except.error e) := rfl
  have hrn : rename_tmp_to_invalid s4 id =
      { s4 with tmp := assocErase s4.tmp (strOfNat id),
                invalid := assocInsert s4.invalid (strOfNat id) f4 } := by
    unfold rename_tmp_to_invalid
    rw [h4look]
  rw [heq, hrn]
  set S : ImageCache :=
    { s4 with tmp := assocErase s4.tmp (strOfNat id),
              invalid := assocInsert s4.invalid (strOfNat id) f4 } with hS
  have hmem : ∃ ent ∈ invalid_entries S, ent.base.id = (id : Int) ∧ ent.error = e := by
    refine ⟨⟨
      { id := (id : Int),
        path := invalid_path S ++ "/" ++ strOfNat id,
        name := get_xattr f4 "image_name" "UNKNOWN",
        lastAccessed := if f4.atime ≠ 0 then f4.atime else f4.mtime,
        size := f4.content.length }, e⟩, ?_, rfl, rfl⟩
    unfold invalid_entries
    apply List.mem_filterMap.mpr
    refine ⟨(strOfNat id, f4), ?_, ?_⟩
    · show (strOfNat id, f4) ∈ S.invalid
      have hSi : S.invalid = assocInsert st.invalid (strOfNat id) f4 := by
        rw [hS]
        show assocInsert s4.invalid (strOfNat id) f4 = _
        rw [h4inv]
      rw [hSi]
      exact mem_assocInsert_self _ _ _
    · unfold base_entry
      rw [pythonInt?_strOfNat]
      simp only [Option.map_some']
      congr 1
      congr 1
      rw [hf4, get_xattr_set_self]
  refine ⟨rfl, ?_, ?_, hmem, ?_⟩
  · simp [hS]
  · intro hm
    simp [hit, hS, h4main, hm]
  · intro he
    obtain ⟨ent, hent, hid, herr⟩ := hmem
    refine ⟨ent, hent, hid, herr, ?_⟩
    rw [herr]
    exact he

/-- Witness for C2 (amended) at a concrete failing session on an empty
cache with error description "boom": the absent-main and non-empty
hypotheses are discharged concretely. -/
theorem C2_rollback_publishes_invalid_witness :
    (open_write (emptyCache "/c") 7 "img" "xyz" (some "boom")).2 = Except.error "boom" ∧
    assocLookup (emptyCache "/c").main (strOfNat 7) = none ∧
    hit (open_write (emptyCache "/c") 7 "img" "xyz" (some "boom")).1 7 = false ∧
    ("boom" ≠ "") ∧
    (∃ ent ∈ invalid_entries (open_write (emptyCache "/c") 7 "img" "xyz" (some "boom")).1,
      ent.base.id = (7 : Int) ∧ ent.error = "boom" ∧ ent.error ≠ "") :=
  ⟨(C2_rollback_publishes_invalid (emptyCache "/c") 7 "img" "xyz" "boom").1,
   rfl,
   (C2_rollback_publishes_invalid (emptyCache "/c") 7 "img" "xyz" "boom").2.2.1 rfl,
   by decide,
   (C2_rollback_publishes_invalid (emptyCache "/c") 7 "img" "xyz" "boom").2.2.2.2
     (by decide)⟩

/-- C3: `open_read` fails with `NotFound` exactly when no file exists at
`main/id` (for any session body, since the open happens first); otherwise
it returns the entry's content, and on normal close performs exactly one
increment of the `hits` attribute — the returned state differs from the
input only by replacing the entry's file with its `hits`-incremented
version. -/
theorem C3_open_read_contract (st : ImageCache) (id : Nat) (body : Option String) :
    (assocLookup st.main (strOfNat id) = none →
      open_read st id body = (st, Except.error ReadErr.notFound)) ∧
    (∀ f, assocLookup st.main (strOfNat id) = some f →
      open_read st id none =
        ({ st with main := assocInsert st.main (strOfNat id) (inc_xattr f "hits") },
         Except.ok f.content) ∧
      get_xattr (inc_xattr f "hits") "hits" "UNKNOWN" =
        strOfNat (((pythonInt? (get_xattr f "hits" "0")).map Int.toNat).getD 0 + 1)) := by
  constructor
  · intro h
    unfold open_read
    rw [h]
  · intro f h
    constructor
    · unfold open_read
      rw [h]
    · unfold inc_xattr
      rw [get_xattr_set_self]

/-- A concrete one-entry cache (image 5 cached with zero hits), used by
witnesses. -/
def oneEntryCache : ImageCache :=
  { root := "/c", main := [("5", ⟨"data", [("hits", "0")], 0, 0⟩)], tmp := [],
    invalid := [], prefetch := [], prefetching := [], clock := 1 }

/-- Witness for C3: the `NotFound` case on an empty cache and the
successful case on a one-entry cache. -/
theorem C3_open_read_contract_witness :
    (assocLookup (emptyCache "/c").main (strOfNat 5) = none ∧
      open_read (emptyCache "/c") 5 none = (emptyCache "/c", Except.error ReadErr.notFound)) ∧
    (open_read oneEntryCache 5 none).2 = Except.ok "data" :=
  ⟨⟨rfl, (C3_open_read_contract (emptyCache "/c") 5 none).1 rfl⟩,
   by
    rw [((C3_open_read_contract oneEntryCache 5 none).2
      ⟨"data", [("hits", "0")], 0, 0⟩ (by decide)).1]⟩

/-- C10: a read session whose body raises an error propagates that error
to the caller and returns the state unchanged — in particular the
entry's `hits` attribute (and every other attribute) is untouched, since
the increment runs only on normal close. -/
theorem C10_aborted_read_propagates (st : ImageCache) (id : Nat) (e : String) (f : FSFile)
    (h : assocLookup st.main (strOfNat id) = some f) :
    open_read st id (some e) = (st, Except.error (ReadErr.bodyErr e)) := by
  unfold open_read
  rw [h]

/-- Witness for C10 at the concrete one-entry cache. -/
theorem C10_aborted_read_propagates_witness :
    assocLookup oneEntryCache.main (strOfNat 5) = some ⟨"data", [("hits", "0")], 0, 0⟩ ∧
    open_read oneEntryCache 5 (some "oops") =
      (oneEntryCache, Except.error (ReadErr.bodyErr "oops")) :=
  ⟨by decide,
   C10_aborted_read_propagates oneEntryCache 5 "oops"
     ⟨"data", [("hits", "0")], 0, 0⟩ (by decide)⟩

/-- The `main` directory after a committing write session: the committed
file is inserted at the id's name. -/
theorem open_write_commit_main (st : ImageCache) (id : Nat) (name w : String) :
    (open_write st id name w none).1.main =
      assocInsert st.main (strOfNat id)
        (set_xattr (set_xattr
          { truncated (assocLookup st.tmp (strOfNat id)) st.clock with content := w }
          "image_name" name) "hits" (strOfNat 0)) := by
  obtain ⟨h4tmp, h4main, h4inv⟩ := open_write_s4 st id name w "hits" (strOfNat 0)
  set f4 := set_xattr (set_xattr
      { truncated (assocLookup st.tmp (strOfNat id)) st.clock with content := w }
      "image_name" name) "hits" (strOfNat 0) with hf4
  set s4 := set_tmp_xattr (set_tmp_xattr (write_tmp_body (create_tmp_file st id) id w)
      id "image_name" name) id "hits" (strOfNat 0) with hs4
  have h4look : assocLookup s4.tmp (strOfNat id) = some f4 := by
    rw [h4tmp]
    exact assocLookup_insert_self _ _ _
  have heq : open_write st id name w none = (rename_tmp_to_main s4 id, Except.ok ()) := rfl
  have hrn : rename_tmp_to_main s4 id =
      { s4 with tmp := assocErase s4.tmp (strOfNat id),
                main := assocInsert s4.main (strOfNat id) f4 } := by
    unfold rename_tmp_to_main
    rw [h4look]
  rw [heq, hrn]
  show assocInsert s4.main (strOfNat id) f4 = _
  rw [h4main]

/-- C6: round trip on an empty cache root. A write session for `id` that
writes bytes `b` and commits makes `hit(id)` true; a subsequent read
session returns exactly `b`; and after that read session closes, the
entry's `hits` attribute reads `"1"`. -/
theorem C6_round_trip (root : String) (id : Nat) (name b : String) :
    hit (open_write (emptyCache root) id name b none).1 id = true ∧
    (open_read (open_write (emptyCache root) id name b none).1 id none).2 = Except.ok b ∧
    (assocLookup (open_read (open_write (emptyCache root) id name b none).1 id none).1.main
      (strOfNat id)).map (fun f => get_xattr f "hits" "UNKNOWN") = some "1" := by
  set f4 := set_xattr (set_xattr
      { truncated (assocLookup (emptyCache root).tmp (strOfNat id)) (emptyCache root).clock
        with content := b }
      "image_name" name) "hits" (strOfNat 0) with hf4
  have hmain1 : (open_write (emptyCache root) id name b none).1.main =
      [(strOfNat id, f4)] := by
    rw [open_write_commit_main]
    rfl
  have hlook1 : assocLookup (open_write (emptyCache root) id name b none).1.main
      (strOfNat id) = some f4 := by
    rw [hmain1]
    simp [assocLookup]
  have hcontent : f4.content = b := by
    rw [hf4, set_xattr_content, set_xattr_content]
  have hread : open_read (open_write (emptyCache root) id name b none).1 id none =
      ({ (open_write (emptyCache root) id name b none).1 with
          main := assocInsert (open_write (emptyCache root) id name b none).1.main
            (strOfNat id) (inc_xattr f4 "hits") },
       Except.ok f4.content) := by
    unfold open_read
    rw [hlook1]
  have hhits : get_xattr (inc_xattr f4 "hits") "hits" "UNKNOWN" = "1" := by
    unfold inc_xattr
    rw [get_xattr_set_self]
    have h1 : get_xattr f4 "hits" "0" = strOfNat 0 := by
      rw [hf4, get_xattr_set_self]
    rw [h1, pythonInt?_strOfNat]
    rfl
  refine ⟨?_, ?_, ?_⟩
  · simp [hit, hlook1]
  · rw [hread, hcontent]
  · rw [hread]
    show (assocLookup (assocInsert (open_write (emptyCache root) id name b none).1.main
      (strOfNat id) (inc_xattr f4 "hits")) (strOfNat id)).map
      (fun f => get_xattr f "hits" "UNKNOWN") = some "1"
    rw [assocLookup_insert_self]
    simp [hhits]

/-- C4: `queue_prefetch` rejects an already-cached image with
`AlreadyCached`, then an in-flight image with `AlreadyPrefetching`, then a
queued image with `AlreadyQueued`, in that order; otherwise it creates a
zero-byte marker at `prefetch/<id>` (timestamped with the current clock)
carrying the `image_name` attribute. Because the queued check comes after
the other two and enqueueing changes neither `main` nor `prefetching`,
the second of two consecutive enqueues for the same id fails with
`AlreadyQueued`. -/
theorem C4_queue_prefetch_conflicts (st : ImageCache) (id : Nat) (name : String) :
    (hit st id = true → queue_prefetch st id name = Except.error QueueErr.alreadyCached) ∧
    (hit st id = false → is_image_currently_prefetching st id = true →
      queue_prefetch st id name = Except.error QueueErr.alreadyPrefetching) ∧
    (hit st id = false → is_image_currently_prefetching st id = false →
      is_image_queued_for_prefetch st id = true →
      queue_prefetch st id name = Except.error QueueErr.alreadyQueued) ∧
    (hit st id = false → is_image_currently_prefetching st id = false →
      is_image_queued_for_prefetch st id = false →
      queue_prefetch st id name = Except.ok
        { st with
          prefetch := assocInsert st.prefetch (strOfNat id)
            { content := "", attrs := [("image_name", name)],
              mtime := st.clock, atime := st.clock },
          clock := st.clock + 1 }) ∧
    (∀ st', queue_prefetch st id name = Except.ok st' →
      ∀ name', queue_prefetch st' id name' = Except.error QueueErr.alreadyQueued) := by
  refine ⟨?_, ?_, ?_, ?_, ?_⟩
  · intro h1
    simp [queue_prefetch, h1]
  · intro h1 h2
    simp [queue_prefetch, h1, h2]
  · intro h1 h2 h3
    simp [queue_prefetch, h1, h2, h3]
  · intro h1 h2 h3
    simp [queue_prefetch, h1, h2, h3]
  · intro st' hok name'
    unfold queue_prefetch at hok
    by_cases h1 : hit st id = true
    · rw [if_pos h1] at hok
      exact absurd hok (by simp)
    · rw [if_neg h1] at hok
      by_cases h2 : is_image_currently_prefetching st id = true
      · rw [if_pos h2] at hok
        exact absurd hok (by simp)
      · rw [if_neg h2] at hok
        by_cases h3 : is_image_queued_for_prefetch st id = true
        · rw [if_pos h3] at hok
          exact absurd hok (by simp)
        · rw [if_neg h3] at hok
          have hst' : st' =
              { st with
                prefetch := assocInsert st.prefetch (strOfNat id)
                  { content := "", attrs := [("image_name", name)],
                    mtime := st.clock, atime := st.clock },
                clock := st.clock + 1 } := by
            injection hok with h
            exact h.symm
          subst hst'
          have hq : is_image_queued_for_prefetch
              { st with
                prefetch := assocInsert st.prefetch (strOfNat id)
                  { content := "", attrs := [("image_name", name)],
                    mtime := st.clock, atime := st.clock },
                clock := st.clock + 1 } id = true := by
            simp [is_image_queued_for_prefetch]
          have hh1 : ¬ hit
              { st with
                prefetch := assocInsert st.prefetch (strOfNat id)
                  { content := "", attrs := [("image_name", name)],
                    mtime := st.clock, atime := st.clock },
                clock := st.clock + 1 } id = true := h1
          have hh2 : ¬ is_image_currently_prefetching
              { st with
                prefetch := assocInsert st.prefetch (strOfNat id)
                  { content := "", attrs := [("image_name", name)],
                    mtime := st.clock, atime := st.clock },
                clock := st.clock + 1 } id = true := h2
          unfold queue_prefetch
          rw [if_neg hh1, if_neg hh2, if_pos hq]

/-- A cache with image 9 queued for prefetching, used by witnesses. -/
def queuedNine : ImageCache :=
  { root := "/c", main := [], tmp := [], invalid := [],
    prefetch := [("9", ⟨"", [("image_name", "x")], 0, 0⟩)], prefetching := [], clock := 1 }

/-- Witness for C4: a cached image is rejected with `AlreadyCached`, and
the second of two consecutive enqueues is rejected with `AlreadyQueued`. -/
theorem C4_queue_prefetch_conflicts_witness :
    hit oneEntryCache 5 = true ∧
    queue_prefetch oneEntryCache 5 "n" = Except.error QueueErr.alreadyCached ∧
    queue_prefetch (emptyCache "/c") 9 "x" = Except.ok queuedNine ∧
    queue_prefetch queuedNine 9 "y" = Except.error QueueErr.alreadyQueued :=
  ⟨by decide,
   (C4_queue_prefetch_conflicts oneEntryCache 5 "n").1 (by decide),
   rfl,
   (C4_queue_prefetch_conflicts (emptyCache "/c") 9 "x").2.2.2.2 queuedNine rfl "y"⟩

/-- C5: `pop_prefetch_item` fails with `Empty` exactly when the
`prefetch` directory is empty; otherwise it returns the name of a queued
marker whose modification time is minimal (FIFO by enqueue time, ties
broken arbitrarily by path), and — the embedding being a pure function of
the state — changes nothing. In particular, after `enqueue(A)` then
`enqueue(B)` on an empty root (the clock making timestamps strictly
increase), it returns `A`. -/
theorem C5_pop_prefetch_fifo (st : ImageCache) :
    (pop_prefetch_item st = none ↔ st.prefetch = []) ∧
    (st.prefetch ≠ [] → ∃ nf, nf ∈ st.prefetch ∧ pop_prefetch_item st = some nf.1 ∧
      ∀ nf' ∈ st.prefetch, nf.2.mtime ≤ nf'.2.mtime) ∧
    (∀ root A B nA nB, A ≠ B →
      ∃ s1 s2, queue_prefetch (emptyCache root) A nA = Except.ok s1 ∧
        queue_prefetch s1 B nB = Except.ok s2 ∧
        pop_prefetch_item s2 = some (strOfNat A)) := by
  refine ⟨?_, ?_, ?_⟩
  · cases hp : st.prefetch with
    | nil => simp [pop_prefetch_item, hp]
    | cons x xs => simp [pop_prefetch_item, hp]
  · intro hne
    cases hp : st.prefetch with
    | nil => exact absurd hp hne
    | cons x xs =>
      have hmap : st.prefetch.map (prefetch_item st) =
          prefetch_item st x :: xs.map (prefetch_item st) := by
        rw [hp]
        rfl
      have hpop : pop_prefetch_item st =
          some (popMin (prefetch_item st x) (xs.map (prefetch_item st))).2.2 := by
        unfold pop_prefetch_item
        rw [hmap]
      obtain ⟨hmem, hle, hall⟩ := popMin_spec (xs.map (prefetch_item st)) (prefetch_item st x)
      rcases hmem with hr | hr
      · refine ⟨x, List.mem_cons_self _ _, ?_, ?_⟩
        · rw [hpop, hr]
          rfl
        · intro nf' hnf'
          rcases List.mem_cons.mp hnf' with heq | hmem'
          · rw [heq]
          · have hx := hall (prefetch_item st nf') (List.mem_map_of_mem _ hmem')
            rw [hr] at hx
            exact hx
      · obtain ⟨nf, hnfmem, hnfeq⟩ := List.mem_map.mp hr
        refine ⟨nf, List.mem_cons_of_mem _ hnfmem, ?_, ?_⟩
        · rw [hpop, ← hnfeq]
          rfl
        · intro nf' hnf'
          rcases List.mem_cons.mp hnf' with heq | hmem'
          · rw [heq]
            have hx := hle
            rw [← hnfeq] at hx
            exact hx
          · have hx := hall (prefetch_item st nf') (List.mem_map_of_mem _ hmem')
            rw [← hnfeq] at hx
            exact hx
  · intro root A B nA nB hAB
    have hne : strOfNat A ≠ strOfNat B := fun h => hAB (strOfNat_injective A B h)
    refine ⟨{ emptyCache root with
        prefetch := [(strOfNat A, ⟨"", [("image_name", nA)], 0, 0⟩)], clock := 1 },
      { emptyCache root with
        prefetch := [(strOfNat A, ⟨"", [("image_name", nA)], 0, 0⟩),
          (strOfNat B, ⟨"", [("image_name", nB)], 1, 1⟩)], clock := 2 }, ?_, ?_, ?_⟩
    · simp [queue_prefetch, hit, is_image_currently_prefetching,
        is_image_queued_for_prefetch, emptyCache, assocLookup, assocInsert]
    · simp [queue_prefetch, hit, is_image_currently_prefetching,
        is_image_queued_for_prefetch, emptyCache, assocLookup, assocInsert, hne]
    · simp [pop_prefetch_item, prefetch_item, popMin, itemLt]

/-- Witness for C5: the FIFO scenario at ids 1 and 2 on an empty root. -/
theorem C5_pop_prefetch_fifo_witness :
    (1 : Nat) ≠ 2 ∧
    (∃ s1 s2, queue_prefetch (emptyCache "/q") 1 "a" = Except.ok s1 ∧
      queue_prefetch s1 2 "b" = Except.ok s2 ∧
      pop_prefetch_item s2 = some (strOfNat 1)) :=
  ⟨by decide, (C5_pop_prefetch_fifo (emptyCache "/q")).2.2 "/q" 1 2 "a" "b" (by decide)⟩

/-- C7: `purge_all` empties the committed entries (the regular files
directly under the root) and the `invalid` directory, leaving `tmp`,
`prefetch`, `prefetching`, the root path and the clock untouched; and
`purge` of an id with no committed file is a no-op returning the state
unchanged. -/
theorem C7_purge_frame (st : ImageCache) (id : Nat) :
    purge_all st = { st with main := [], invalid := [] } ∧
    (assocLookup st.main (strOfNat id) = none → purge st id = st) := by
  constructor
  · unfold purge_all
    rw [foldl_delete_file_eq_nil st.main st.main (fun x hx => ⟨x, hx, rfl⟩),
      foldl_delete_file_eq_nil st.invalid st.invalid (fun x hx => ⟨x, hx, rfl⟩)]
  · intro h
    unfold purge delete_file
    rw [h]
    rfl

/-- Witness for C7: purging a never-cached id on an empty cache is a
no-op. -/
theorem C7_purge_frame_witness :
    assocLookup (emptyCache "/c").main (strOfNat 3) = none ∧
    purge (emptyCache "/c") 3 = emptyCache "/c" ∧
    purge_all oneEntryCache = { oneEntryCache with main := [], invalid := [] } :=
  ⟨rfl, (C7_purge_frame (emptyCache "/c") 3).2 rfl, (C7_purge_frame oneEntryCache 3).1⟩

/-- C9: `_base_entries` (and so `entries`, `invalid_entries` and
`prefetch_entries`, which are built on it) silently skips every file
whose name does not parse as an ImageID: the number of descriptors equals
the number of files with parseable names, every yielded descriptor's id
did parse from some listed file, and the enumeration is a total function
that cannot fail on a malformed name. -/
theorem C9_malformed_names_skipped (bp : String) (d : Directory) (st : ImageCache) :
    (base_entries bp d).length = (d.filter (fun nf => (pythonInt? nf.1).isSome)).length ∧
    (∀ e ∈ base_entries bp d, ∃ nf ∈ d, pythonInt? nf.1 = some e.id) ∧
    (entries st).length = (st.main.filter (fun nf => (pythonInt? nf.1).isSome)).length ∧
    (invalid_entries st).length =
      (st.invalid.filter (fun nf => (pythonInt? nf.1).isSome)).length ∧
    (prefetch_entries st).length =
      (st.prefetch.filter (fun nf => (pythonInt? nf.1).isSome)).length +
      (st.prefetching.filter (fun nf => (pythonInt? nf.1).isSome)).length := by
  refine ⟨?_, ?_, ?_, ?_, ?_⟩
  · rw [base_entries, length_filterMap_isSome]
    exact congrArg List.length
      (List.filter_congr (fun nf _ => base_entry_isSome bp nf))
  · intro e he
    obtain ⟨nf, hnf, hid, _⟩ := mem_base_entries bp d e he
    exact ⟨nf, hnf, hid⟩
  · rw [entries, length_filterMap_isSome]
    refine congrArg List.length (List.filter_congr (fun nf _ => ?_))
    have hmap : ((base_entry st.root nf).map
        (fun e => (⟨e, get_xattr nf.2 "hits" "UNKNOWN"⟩ : MainEntry))).isSome =
        (base_entry st.root nf).isSome := by
      cases base_entry st.root nf <;> rfl
    rw [hmap, base_entry_isSome]
  · rw [invalid_entries, length_filterMap_isSome]
    refine congrArg List.length (List.filter_congr (fun nf _ => ?_))
    have hmap : ((base_entry (invalid_path st) nf).map
        (fun e => (⟨e, get_xattr nf.2 "error" "UNKNOWN"⟩ : InvalidEntry))).isSome =
        (base_entry (invalid_path st) nf).isSome := by
      cases base_entry (invalid_path st) nf <;> rfl
    rw [hmap, base_entry_isSome]
  · rw [prefetch_entries, List.length_map, List.length_append, base_entries, base_entries,
      length_filterMap_isSome, length_filterMap_isSome]
    congr 1
    · exact congrArg List.length
        (List.filter_congr (fun nf _ => base_entry_isSome (prefetch_path st) nf))
    · exact congrArg List.length
        (List.filter_congr (fun nf _ => base_entry_isSome (prefetching_path st) nf))

/-- A directory listing with one well-formed and one malformed file
name, used by witnesses. -/
def mixedDir : Directory := [("7", ⟨"a", [], 0, 0⟩), ("junk", ⟨"b", [], 0, 0⟩)]

/-- Witness for C9: on a listing with names "7" and "junk", exactly one
descriptor is produced and its id parsed from a listed file. -/
theorem C9_malformed_names_skipped_witness :
    (base_entries "/c" mixedDir).length =
      (mixedDir.filter (fun nf => (pythonInt? nf.1).isSome)).length ∧
    (⟨7, "/c/7", "UNKNOWN", 0, 1⟩ : Entry) ∈ base_entries "/c" mixedDir ∧
    (∃ nf ∈ mixedDir, pythonInt? nf.1 = some (7 : Int)) :=
  ⟨(C9_malformed_names_skipped "/c" mixedDir (emptyCache "/c")).1,
   by decide,
   (C9_malformed_names_skipped "/c" mixedDir (emptyCache "/c")).2.1
     ⟨7, "/c/7", "UNKNOWN", 0, 1⟩ (by decide)⟩

/-- A cache whose root path itself contains the substring
"prefetching", with one queued marker and nothing in flight. -/
def trickyRoot : ImageCache :=
  { root := "prefetching", main := [], tmp := [], invalid := [],
    prefetch := [("7", ⟨"", [("image_name", "n")], 0, 0⟩)], prefetching := [], clock := 1 }

/-- C8 (claim as stated is refuted): the status is derived from the
substring test `'prefetching' in path` on the full path, not from the
directory alone. With root path "prefetching", the only marker sits in
the `prefetch` directory (the `prefetching` directory is empty), yet
every reported status is "in-progress" rather than "queued". -/
theorem C8_status_counterexample :
    trickyRoot.prefetching = [] ∧
    trickyRoot.prefetch ≠ [] ∧
    prefetch_entries trickyRoot ≠ [] ∧
    ∀ e ∈ prefetch_entries trickyRoot, e.status = "in-progress" := by
  refine ⟨rfl, by decide, by decide, by decide⟩

/-- C8 (amended): provided the cache root's path does not contain the
substring "prefetching", every entry reported from the `prefetch`
directory has status "queued" and every entry reported from the
`prefetching` directory has status "in-progress" — the status then
depends only on which directory the marker was found in. -/
theorem C8_status_by_directory (st : ImageCache)
    (h : containsSub "prefetching" st.root = false) :
    prefetch_entries st =
      (base_entries (prefetch_path st) st.prefetch).map
        (fun e => ⟨e, "queued"⟩) ++
      (base_entries (prefetching_path st) st.prefetching).map
        (fun e => ⟨e, "in-progress"⟩) := by
  unfold prefetch_entries
  rw [List.map_append]
  congr 1
  · apply List.map_congr_left
    intro e he
    have hq : containsSub "prefetching" e.path = false := by
      obtain ⟨nf, hnf, hid, hpath⟩ := mem_base_entries _ _ _ he
      rw [hpath]
      cases hcs : containsSub "prefetching" (prefetch_path st ++ "/" ++ nf.1)
      · rfl
      · exfalso
        have hinf := (containsSub_iff _ _).mp hcs
        simp only [prefetch_path, strToList_append, List.append_assoc] at hinf
        have hroot : ¬ "prefetching".toList <:+: st.root.toList := by
          intro hi
          have hb := (containsSub_iff "prefetching" st.root).mpr hi
          rw [h] at hb
          exact Bool.noConfusion hb
        have hg : 'g' ∉ ("/prefetch".toList ++ ("/".toList ++ nf.1.toList)) := by
          intro hin
          rcases List.mem_append.mp hin with h1 | h1
          · exact absurd h1 (by decide)
          · rcases List.mem_append.mp h1 with h2 | h2
            · exact absurd h2 (by decide)
            · exact pythonInt?_no_g nf.1 e.id hid h2
        exact not_infix_append "prefetching".toList st.root.toList
          ("/prefetch".toList ++ ("/".toList ++ nf.1.toList)) 'g'
          (by decide) hroot hg hinf
    simp [hq]
  · apply List.map_congr_left
    intro e he
    have hq : containsSub "prefetching" e.path = true := by
      obtain ⟨nf, hnf, hid, hpath⟩ := mem_base_entries _ _ _ he
      rw [hpath]
      refine (containsSub_iff _ _).mpr ?_
      refine ⟨st.root.toList ++ ['/'], "/".toList ++ nf.1.toList, ?_⟩
      have hqp : ("/prefetching".toList : List Char) = '/' :: "prefetching".toList := by
        decide
      simp only [prefetching_path, strToList_append, List.append_assoc, hqp,
        List.singleton_append, List.cons_append, List.nil_append]
    simp [hq]

/-- Witness for C8 (amended) at a cache with the clean root "/c". -/
theorem C8_status_by_directory_witness :
    containsSub "prefetching" "/c" = false ∧
    prefetch_entries queuedNine =
      (base_entries (prefetch_path queuedNine) queuedNine.prefetch).map
        (fun e => ⟨e, "queued"⟩) ++
      (base_entries (prefetching_path queuedNine) queuedNine.prefetching).map
        (fun e => ⟨e, "in-progress"⟩) :=
  ⟨by decide, C8_status_by_directory queuedNine (by decide)⟩

end Glance
